import Mathlib

/-!
Shallow embedding of the ray tracer in `main.go`.

The Go program computes with `float64`; here every numeric quantity is an
exact real number, so "within floating tolerance" statements of the spec
become exact equalities.  Go's `math.Sqrt`, `math.Cos`, `math.Sin` become
`Real.sqrt`, `Real.cos`, `Real.sin`.  The unbounded shading recursion of
`scene.getColor` is embedded with an explicit fuel parameter; fuel `0`
returns the background colour, and every theorem below is stated at
positive fuel so nothing depends on that choice.
-/

noncomputable section

namespace Raytracer

/-- `const tolerance = 0.001` from the source. -/
def tolerance : ℝ := 0.001

/-- `type point struct { x, y, z float64 }`. -/
structure point where
  x : ℝ
  y : ℝ
  z : ℝ
deriving DecidableEq

/-- `type direction struct { dx, dy, dz float64 }`. -/
structure direction where
  dx : ℝ
  dy : ℝ
  dz : ℝ
deriving DecidableEq

/-- `func (d direction) scale(factor float64) direction`. -/
def direction.scale (d : direction) (factor : ℝ) : direction :=
  ⟨factor * d.dx, factor * d.dy, factor * d.dz⟩

/-- `func (d direction) flip() direction`. -/
def direction.flip (d : direction) : direction :=
  d.scale (-1)

/-- `func (d direction) add(d2 direction) direction`. -/
def direction.add (d d2 : direction) : direction :=
  ⟨d.dx + d2.dx, d.dy + d2.dy, d.dz + d2.dz⟩

/-- `func (p point) to(other point) direction`. -/
def point.to (p other : point) : direction :=
  ⟨other.x - p.x, other.y - p.y, other.z - p.z⟩

/-- `func norm2(d direction) float64`. -/
def norm2 (d : direction) : ℝ :=
  d.dx * d.dx + d.dy * d.dy + d.dz * d.dz

/-- `func norm(d direction) float64`. -/
def norm (d : direction) : ℝ :=
  Real.sqrt (norm2 d)

/-- `func (d *direction) normalize()` — in Go this divides the receiver's
components by its norm in place; here it returns the updated value. -/
def normalize (d : direction) : direction :=
  ⟨d.dx / norm d, d.dy / norm d, d.dz / norm d⟩

/-- `func dot(d1 direction, d2 direction) float64`. -/
def dot (d1 d2 : direction) : ℝ :=
  d1.dx * d2.dx + d1.dy * d2.dy + d1.dz * d2.dz

/-- `func rotateAround(v direction, normal direction) direction` —
"rotate v 180 degrees around normal". -/
def rotateAround (v normal : direction) : direction :=
  let n := normalize normal
  let dotprod := n.dx * v.dx + n.dy * v.dy + n.dz * v.dz
  let diff : direction :=
    ⟨v.dx - dotprod * n.dx, v.dy - dotprod * n.dy, v.dz - dotprod * n.dz⟩
  ⟨v.dx - 2 * diff.dx, v.dy - 2 * diff.dy, v.dz - 2 * diff.dz⟩

/-- `type ray struct { src point; dir direction }`. -/
structure ray where
  src : point
  dir : direction
deriving DecidableEq

/-- `func (r *ray) scale(factor float64) point`. -/
def ray.scale (r : ray) (factor : ℝ) : point :=
  ⟨r.src.x + factor * r.dir.dx, r.src.y + factor * r.dir.dy,
    r.src.z + factor * r.dir.dz⟩

/-- `func getRay(src point, dst point) ray`. -/
def getRay (src dst : point) : ray :=
  ⟨src, src.to dst⟩

/-- `func (r ray) flip() ray`. -/
def ray.flip (r : ray) : ray :=
  getRay r.src (r.scale (-1))

/-- `func (r ray) shiftBy(d direction) ray`. -/
def ray.shiftBy (r : ray) (d : direction) : ray :=
  ⟨r.src, r.dir.add d⟩

/-- An RGBA colour with 8-bit channels, as Go's `color.RGBA`. -/
structure Color where
  r : ℕ
  g : ℕ
  b : ℕ
  a : ℕ
deriving DecidableEq

/-- Go's `color.RGBA.RGBA()` widens each 8-bit channel to 16 bits by
replication: `c | c<<8 = c * 0x101 = c * 257`. -/
def Color.rgba (c : Color) : ℕ × ℕ × ℕ × ℕ :=
  (c.r * 257, c.g * 257, c.b * 257, c.a * 257)

/-- `type material struct`. -/
structure material where
  luminous : Bool
  color : Color
  roughness : ℝ

/-- `type ball struct`. -/
structure ball where
  center : point
  radius : ℝ
  mat : material

/-- `func (b *ball) intersect(r ray) (point, bool)` — the ray–sphere
quadratic; `(point{}, false)` becomes `none`. -/
def ball.intersect (b : ball) (r : ray) : Option point :=
  let xx := r.src.x - b.center.x
  let yy := r.src.y - b.center.y
  let zz := r.src.z - b.center.z
  let dx := r.dir.dx
  let dy := r.dir.dy
  let dz := r.dir.dz
  let aa := dx * dx + dy * dy + dz * dz
  let bb := 2 * (xx * dx + yy * dy + zz * dz)
  let cc := xx * xx + yy * yy + zz * zz - b.radius * b.radius
  let radical := bb * bb - 4 * aa * cc
  if radical < 0 then none
  else
    let factor := (-bb - Real.sqrt radical) / (2 * aa)
    if factor < tolerance then none
    else some (r.scale factor)

/-- First orthogonal candidate `n1dir` of `ball.reflect`: a vector
orthogonal to the reflected direction, built from whichever component of
`v` is non-zero (the `if / else if / else` chain of the source). -/
def n1dirTemp (v : direction) : direction :=
  if v.dx ≠ 0 then ⟨-(v.dy + v.dz) / v.dx, 1, 1⟩
  else if v.dy ≠ 0 then ⟨1, -(v.dx + v.dz) / v.dy, 1⟩
  else ⟨1, 1, -(v.dx + v.dy) / v.dz⟩

/-- Second orthogonal candidate `n2dirTemp` of `ball.reflect`, before
Gram–Schmidt against `n1dir`. -/
def n2dirTemp (v : direction) : direction :=
  if v.dx ≠ 0 then ⟨-(v.dy + 2 * v.dz) / v.dx, 1, 2⟩
  else if v.dy ≠ 0 then ⟨2, -(2 * v.dx + v.dz) / v.dy, 1⟩
  else ⟨1, 2, -(v.dx + 2 * v.dy) / v.dz⟩

/-- `n1dir` after its in-place `normalize()`. -/
def n1dir (v : direction) : direction :=
  normalize (n1dirTemp v)

/-- `n2dirTemp` minus its component parallel to `n1dir`
(`parallelComp := dot(n1dir, n2dirTemp)`), before the final
normalization. -/
def n2pre (v : direction) : direction :=
  ⟨(n2dirTemp v).dx - dot (n1dir v) (n2dirTemp v) * (n1dir v).dx,
    (n2dirTemp v).dy - dot (n1dir v) (n2dirTemp v) * (n1dir v).dy,
    (n2dirTemp v).dz - dot (n1dir v) (n2dirTemp v) * (n1dir v).dz⟩

/-- `n2dir`: `n2dirTemp` made orthogonal to `n1dir` and normalized. -/
def n2dir (v : direction) : direction :=
  normalize (n2pre v)

/-- Number of iterations of the ring loop
`for radius := 0.01; radius <= 5*roughness; radius += 0.05`: over exact
reals the radius at iteration `k` is `0.01 + 0.05*k`, so the loop body
runs for every `k` with `0.01 + 0.05*k ≤ 5*roughness`
(see `ringCount_iff`). -/
def ringCount (roughness : ℝ) : ℕ :=
  if 0.01 ≤ 5 * roughness then (⌊(5 * roughness - 0.01) / 0.05⌋).toNat + 1
  else 0

/-- The `shiftDir` of one `(radius, angle)` iteration of the scatter loop
(`radians` is the angle in radians). -/
def shiftDir (od : direction) (radius radians : ℝ) : direction :=
  let n1s := Real.cos radians
  let n2s := Real.sin radians
  let n1 := n1dir od
  let n2 := n2dir od
  ⟨radius * norm od * (n1s * n1.dx + n2s * n2.dx),
    radius * norm od * (n1s * n1.dy + n2s * n2.dy),
    radius * norm od * (n1s * n1.dz + n2s * n2.dz)⟩

/-- The scattered rays appended by the nested
`for radius ... { for angle := 0; angle < 360; angle += 5 ... }` loop:
ring `k` has radius `0.01 + 0.05*k`, angle sample `j` is `5*j` degrees. -/
def fanRays (intersection : point) (od : direction) (roughness : ℝ) :
    List ray :=
  (List.range (ringCount roughness)).flatMap fun k =>
    (List.range 72).map fun j =>
      ⟨intersection,
        od.add (shiftDir od (0.01 + 0.05 * (k : ℝ))
          (((5 * j : ℕ) : ℝ) * (Real.pi / 180)))⟩

/-- `func (b *ball) reflect(r ray, intersection point)`.

The receiver is a pointer and `b.mat.roughness = 1` writes through it, so
the (possibly updated) ball is returned alongside the Go results.  The
weight list appends `1.0/72` once per scattered ray, in lockstep with the
ray list, hence the `List.replicate` of the fan's length. -/
def ball.reflect (b : ball) (r : ray) (intersection : point) :
    (List ray × List ℝ × Color) × ball :=
  if b.mat.luminous then (([], [], b.mat.color), b)
  else
    let normal := (getRay intersection b.center).flip
    let outgoingDir := rotateAround r.flip.dir normal.dir
    let outgoingRay : ray := ⟨intersection, outgoingDir⟩
    if 0 < b.mat.roughness then
      let b2 : ball :=
        if 1 < b.mat.roughness then
          { b with mat := { b.mat with roughness := 1 } }
        else b
      ((outgoingRay :: fanRays intersection outgoingDir b2.mat.roughness,
          1 :: List.replicate (ringCount b2.mat.roughness * 72) (1 / 72),
          b.mat.color), b2)
    else (([outgoingRay], [1], b.mat.color), b)

/-- `type scene struct` — the one implemented `object` variant is `ball`. -/
structure scene where
  objects : List ball
  background : Color

/-- Placeholder object for the (never taken) out-of-range index lookup in
`getColor`'s `s.objects[minI]`. -/
def dummyBall : ball :=
  ⟨⟨0, 0, 0⟩, 0, ⟨false, ⟨0, 0, 0, 0⟩, 0⟩⟩

/-- One iteration of the nearest-hit scan of `scene.getColor`: the
accumulator is `none` while `minDist < 0`, otherwise
`some (minI, ipnt, minDist)`; object `o` at index `i` replaces it only
when its hit is strictly closer (`dist < minDist`). -/
def accUpdate (r : ray) (i : ℕ) (o : ball) (acc : Option (ℕ × point × ℝ)) :
    Option (ℕ × point × ℝ) :=
  match o.intersect r with
  | none => acc
  | some ipnt =>
      let dist := norm (r.src.to ipnt)
      match acc with
      | none => some (i, ipnt, dist)
      | some (mi, mp, md) =>
          if dist < md then some (i, ipnt, dist) else some (mi, mp, md)

/-- The nearest-hit scan of `scene.getColor` over the object list,
carrying the running index `i`. -/
def nearestHitAux (r : ray) :
    List ball → ℕ → Option (ℕ × point × ℝ) → Option (ℕ × point × ℝ)
  | [], _, acc => acc
  | o :: rest, i, acc => nearestHitAux r rest (i + 1) (accUpdate r i o acc)

/-- The nearest-hit query of `scene.getColor` over the whole object list. -/
def findNearestHit (s : scene) (r : ray) : Option (ℕ × point × ℝ) :=
  nearestHitAux r s.objects 0 none

/-- Loop invariant of the nearest-hit scan after the first `n` objects:
`none` means no object so far intersects; `some (mi, mp, md)` means `mi`
is the first index among the first `n` attaining the minimum distance
`md` to its hit point `mp`. -/
def hitInv (r : ray) (objs : List ball) (n : ℕ) :
    Option (ℕ × point × ℝ) → Prop
  | none => ∀ j, j < n → ∀ o, objs.get? j = some o → o.intersect r = none
  | some (mi, mp, md) =>
      mi < n ∧ (∃ o, objs.get? mi = some o ∧ o.intersect r = some mp) ∧
      md = norm (r.src.to mp) ∧
      (∀ j, j < n → ∀ o q, objs.get? j = some o → o.intersect r = some q →
        md ≤ norm (r.src.to q)) ∧
      (∀ j, j < mi → ∀ o q, objs.get? j = some o → o.intersect r = some q →
        md < norm (r.src.to q))

/-- The accumulation loop of `scene.getColor` over the outgoing rays:
`(totalWeight, finalR, finalG, finalB)` after folding the list of
`(weight, recursively shaded color)` pairs. -/
def shadeAccum (cc : Color) (pairs : List (ℝ × Color)) : ℝ × ℝ × ℝ × ℝ :=
  pairs.foldl
    (fun acc wc =>
      (acc.1 + wc.1,
        acc.2.1 + ((wc.2.r * 257 : ℕ) : ℝ) / ((wc.2.a * 257 : ℕ) : ℝ) *
          ((cc.r * 257 : ℕ) : ℝ) * wc.1,
        acc.2.2.1 + ((wc.2.g * 257 : ℕ) : ℝ) / ((wc.2.a * 257 : ℕ) : ℝ) *
          ((cc.g * 257 : ℕ) : ℝ) * wc.1,
        acc.2.2.2 + ((wc.2.b * 257 : ℕ) : ℝ) / ((wc.2.a * 257 : ℕ) : ℝ) *
          ((cc.b * 257 : ℕ) : ℝ) * wc.1))
    (0, 0, 0, 0)

/-- Go's `uint8(x)` conversion from `float64` truncates toward zero; every
value cast in `getColor` lies in `[0, 255]`, where truncation is `⌊x⌋`. -/
def f2u8 (x : ℝ) : ℕ :=
  (⌊x⌋).toNat

/-- The tail of `scene.getColor`'s non-luminous branch: divide the
accumulated channels by `totalWeight`, rescale by the base colour's alpha
into 0–255 and build the output `color.RGBA` with alpha 255. -/
def shadeBlend (cc : Color) (pairs : List (ℝ × Color)) : Color :=
  let acc := shadeAccum cc pairs
  ⟨f2u8 (acc.2.1 / acc.1 / ((cc.a * 257 : ℕ) : ℝ) * 255),
    f2u8 (acc.2.2.1 / acc.1 / ((cc.a * 257 : ℕ) : ℝ) * 255),
    f2u8 (acc.2.2.2 / acc.1 / ((cc.a * 257 : ℕ) : ℝ) * 255),
    255⟩

/-- `func (s *scene) getColor(r ray) color.Color`, with explicit fuel for
the unbounded recursion; fuel `0` falls back to the background colour and
all theorems below are stated at positive fuel. -/
def getColor (s : scene) : ℕ → ray → Color
  | 0, _ => s.background
  | fuel + 1, r =>
      match findNearestHit s r with
      | none => s.background
      | some (mi, ipnt, _) =>
          let collidesWith := s.objects.getD mi dummyBall
          let res := (collidesWith.reflect r ipnt).1
          if res.1.isEmpty then res.2.2
          else
            shadeBlend res.2.2
              ((res.1.zip res.2.1).map fun ow => (ow.2, getColor s fuel ow.1))

/-- The non-luminous green sphere of the example scene in `main`. -/
def greenBall : ball :=
  ⟨⟨-10, 0, 50⟩, 1, ⟨false, ⟨0, 255, 0, 255⟩, 1⟩⟩

/-- The luminous white sphere of the example scene in `main`. -/
def whiteBall : ball :=
  ⟨⟨30, 0, 40⟩, 30, ⟨true, ⟨255, 255, 255, 255⟩, 0⟩⟩

/-- The example scene built in `main`: a non-luminous green sphere, a
luminous white sphere and a dark grey background. -/
def exampleScene : scene :=
  ⟨[greenBall, whiteBall], ⟨32, 32, 32, 255⟩⟩

/-- A camera ray from the origin aimed at the luminous sphere's centre:
it hits only the luminous sphere. -/
def aimedRay : ray :=
  ⟨⟨0, 0, 0⟩, ⟨30, 0, 40⟩⟩

/-- A camera ray from the origin pointing straight up: it misses both
spheres of the example scene. -/
def upRay : ray :=
  ⟨⟨0, 0, 0⟩, ⟨0, 1, 0⟩⟩

/-- Quadratic coefficient `aa = |dir|²` of `ball.intersect`. -/
def qa (b : ball) (r : ray) : ℝ :=
  r.dir.dx * r.dir.dx + r.dir.dy * r.dir.dy + r.dir.dz * r.dir.dz

/-- Quadratic coefficient `bb = 2·(originOffset·dir)` of `ball.intersect`. -/
def qb (b : ball) (r : ray) : ℝ :=
  2 * ((r.src.x - b.center.x) * r.dir.dx + (r.src.y - b.center.y) * r.dir.dy +
    (r.src.z - b.center.z) * r.dir.dz)

/-- Quadratic coefficient `cc = |originOffset|² − radius²` of
`ball.intersect`. -/
def qc (b : ball) (r : ray) : ℝ :=
  (r.src.x - b.center.x) * (r.src.x - b.center.x) +
    (r.src.y - b.center.y) * (r.src.y - b.center.y) +
    (r.src.z - b.center.z) * (r.src.z - b.center.z) - b.radius * b.radius

/-- The discriminant `radical` of `ball.intersect`. -/
def qdisc (b : ball) (r : ray) : ℝ :=
  qb b r * qb b r - 4 * qa b r * qc b r

/-- The smaller quadratic root `factor` of `ball.intersect`. -/
def qt (b : ball) (r : ray) : ℝ :=
  (-qb b r - Real.sqrt (qdisc b r)) / (2 * qa b r)

lemma ray_flip_dir (r : ray) : (ray.flip r).dir = r.dir.flip := by
  simp only [ray.flip, getRay, point.to, ray.scale, direction.flip,
    direction.scale]
  congr 1 <;> ring

lemma getRay_flip_dir (q c : point) : ((getRay q c).flip).dir = c.to q := by
  simp only [ray.flip, getRay, point.to, ray.scale]
  congr 1 <;> ring

lemma norm2_nonneg (d : direction) : 0 ≤ norm2 d := by
  simp only [norm2]
  have hx := mul_self_nonneg d.dx
  have hy := mul_self_nonneg d.dy
  have hz := mul_self_nonneg d.dz
  linarith

lemma norm_sq (d : direction) : norm d * norm d = norm2 d :=
  Real.mul_self_sqrt (norm2_nonneg d)

lemma norm2_eq_zero_iff (d : direction) : norm2 d = 0 ↔ d = ⟨0, 0, 0⟩ := by
  cases d with
  | mk x y z =>
    simp only [norm2, direction.mk.injEq]
    constructor
    · intro h
      have hx := mul_self_nonneg x
      have hy := mul_self_nonneg y
      have hz := mul_self_nonneg z
      refine ⟨mul_self_eq_zero.mp ?_, mul_self_eq_zero.mp ?_,
        mul_self_eq_zero.mp ?_⟩ <;> linarith
    · rintro ⟨hx, hy, hz⟩
      rw [hx, hy, hz]
      ring

lemma norm_ne_zero (d : direction) (h : d ≠ ⟨0, 0, 0⟩) : norm d ≠ 0 := by
  intro h0
  apply h
  rw [← norm2_eq_zero_iff, ← norm_sq, h0, mul_zero]

lemma norm2_normalize (d : direction) (h : d ≠ ⟨0, 0, 0⟩) :
    norm2 (normalize d) = 1 := by
  have hn := norm_ne_zero d h
  have hs := norm_sq d
  simp only [normalize, norm2] at *
  field_simp
  linarith [hs]

lemma norm_normalize (d : direction) (h : d ≠ ⟨0, 0, 0⟩) :
    norm (normalize d) = 1 := by
  rw [norm, norm2_normalize d h, Real.sqrt_one]

lemma dot_self_eq_norm2 (d : direction) : dot d d = norm2 d := rfl

lemma rotateAround_eq (v n : direction) (h : n ≠ ⟨0, 0, 0⟩) :
    rotateAround v n =
      ⟨2 * (dot v n / norm2 n) * n.dx - v.dx,
        2 * (dot v n / norm2 n) * n.dy - v.dy,
        2 * (dot v n / norm2 n) * n.dz - v.dz⟩ := by
  have hn := norm_ne_zero n h
  have hs := norm_sq n
  have h2 : norm2 n ≠ 0 := by rw [← hs]; exact mul_ne_zero hn hn
  simp only [rotateAround, normalize, dot]
  rw [← hs]
  congr 1 <;> field_simp <;> ring

/-- `ball.intersect` returning a point implies that point lies exactly on
the sphere: the returned parameter is an exact root of the quadratic. -/
lemma intersect_on_sphere (b : ball) (r : ray) (p : point)
    (hit : b.intersect r = some p) :
    norm2 (b.center.to p) = b.radius * b.radius := by
  simp only [ball.intersect] at hit
  set xx := r.src.x - b.center.x with hxx
  set yy := r.src.y - b.center.y with hyy
  set zz := r.src.z - b.center.z with hzz
  set dx := r.dir.dx with hdx
  set dy := r.dir.dy with hdy
  set dz := r.dir.dz with hdz
  set aa := dx * dx + dy * dy + dz * dz with haa
  set bb := 2 * (xx * dx + yy * dy + zz * dz) with hbb
  set cc := xx * xx + yy * yy + zz * zz - b.radius * b.radius with hcc
  set radical := bb * bb - 4 * aa * cc with hradical
  set ff := (-bb - Real.sqrt radical) / (2 * aa) with hff
  split_ifs at hit with h1 h2
  simp only [Option.some.injEq] at hit
  have hp : r.scale ff = p := hit
  have hs2 : Real.sqrt radical * Real.sqrt radical = radical :=
    Real.mul_self_sqrt (not_lt.mp h1)
  have haa0 : aa ≠ 0 := by
    intro h0
    rw [haa] at h0
    have hnx := mul_self_nonneg dx
    have hny := mul_self_nonneg dy
    have hnz := mul_self_nonneg dz
    have hx0 : dx = 0 := mul_self_eq_zero.mp (by linarith)
    have hy0 : dy = 0 := mul_self_eq_zero.mp (by linarith)
    have hz0 : dz = 0 := mul_self_eq_zero.mp (by linarith)
    have hbb0 : bb = 0 := by rw [hbb, hx0, hy0, hz0]; ring
    have hr0 : radical = 0 := by rw [hradical, hbb0, haa, hx0, hy0, hz0]; ring
    have hf0 : ff = 0 := by
      rw [hff, hbb0, hr0, haa, hx0, hy0, hz0, Real.sqrt_zero]
      simp
    exact h2 (by rw [hf0]; norm_num [tolerance])
  have h4 : 2 * aa * ff = -bb - Real.sqrt radical := by
    rw [hff]
    field_simp
  have key : 4 * aa * (aa * ff * ff + bb * ff + cc) =
      (2 * aa * ff) * (2 * aa * ff) + 2 * bb * (2 * aa * ff) + 4 * aa * cc := by
    ring
  rw [h4] at key
  have key2 : (-bb - Real.sqrt radical) * (-bb - Real.sqrt radical) +
      2 * bb * (-bb - Real.sqrt radical) + 4 * aa * cc =
      Real.sqrt radical * Real.sqrt radical - (bb * bb - 4 * aa * cc) := by
    ring
  rw [hs2, ← hradical] at key2
  have hroot : aa * ff * ff + bb * ff + cc = 0 := by
    have h40 : (4 : ℝ) * aa ≠ 0 := by
      intro h'
      exact haa0 (by linarith [h'] )
    have : 4 * aa * (aa * ff * ff + bb * ff + cc) = 0 := by
      rw [key, key2]
      ring
    exact (mul_eq_zero.mp this).resolve_left h40
  rw [haa, hbb, hcc] at hroot
  rw [hxx, hyy, hzz] at hroot
  rw [← hp]
  simp only [norm2, point.to, ray.scale]
  rw [hdx, hdy, hdz] at hroot
  linear_combination hroot

lemma intersect_hit_ne_center (b : ball) (r : ray) (p : point)
    (hrad : 0 < b.radius) (hit : b.intersect r = some p) :
    b.center.to p ≠ ⟨0, 0, 0⟩ := by
  intro h0
  have hsph := intersect_on_sphere b r p hit
  rw [h0] at hsph
  simp only [norm2] at hsph
  nlinarith [hsph]

/-- C1: on a sphere with non-luminous material and `roughness = 0`,
`reflect` at a hit point `p` returns exactly one outgoing ray: it starts
at `p`, its direction is the mirror reflection of the incoming direction
about the unit outward normal at `p`, and the angle-of-incidence /
angle-of-reflection dot-product identity holds. -/
theorem reflect_smooth_mirror (b : ball) (r : ray) (p : point)
    (hl : b.mat.luminous = false) (hrough : b.mat.roughness = 0)
    (hrad : 0 < b.radius) (hit : b.intersect r = some p) :
    ∃ od : direction,
      (b.reflect r p).1.1 = [⟨p, od⟩] ∧
      (b.reflect r p).1.2.1 = [1] ∧
      od = ⟨r.dir.dx - 2 * dot r.dir (normalize (b.center.to p)) *
              (normalize (b.center.to p)).dx,
            r.dir.dy - 2 * dot r.dir (normalize (b.center.to p)) *
              (normalize (b.center.to p)).dy,
            r.dir.dz - 2 * dot r.dir (normalize (b.center.to p)) *
              (normalize (b.center.to p)).dz⟩ ∧
      dot od (normalize (b.center.to p)) =
        - dot r.dir (normalize (b.center.to p)) := by
  have hn0 := intersect_hit_ne_center b r p hrad hit
  have hform : (b.reflect r p).1.1 =
      [⟨p, rotateAround r.flip.dir ((getRay p b.center).flip).dir⟩] ∧
      (b.reflect r p).1.2.1 = [1] := by
    rw [ball.reflect]
    simp only [hl, hrough]
    norm_num
  have hod : rotateAround r.flip.dir ((getRay p b.center).flip).dir =
      ⟨r.dir.dx - 2 * dot r.dir (normalize (b.center.to p)) *
          (normalize (b.center.to p)).dx,
        r.dir.dy - 2 * dot r.dir (normalize (b.center.to p)) *
          (normalize (b.center.to p)).dy,
        r.dir.dz - 2 * dot r.dir (normalize (b.center.to p)) *
          (normalize (b.center.to p)).dz⟩ := by
    rw [getRay_flip_dir, ray_flip_dir, rotateAround_eq _ _ hn0]
    have hnn := norm_ne_zero _ hn0
    have hs := norm_sq (b.center.to p)
    simp only [direction.flip, direction.scale, normalize, dot]
    rw [← hs]
    congr 1 <;> field_simp <;> ring
  refine ⟨rotateAround r.flip.dir ((getRay p b.center).flip).dir,
    hform.1, hform.2, hod, ?_⟩
  have hunit : dot (normalize (b.center.to p)) (normalize (b.center.to p)) =
      1 := by
    rw [dot_self_eq_norm2]
    exact norm2_normalize _ hn0
  rw [hod]
  simp only [dot] at hunit ⊢
  linear_combination
    (-2 * (r.dir.dx * (normalize (b.center.to p)).dx +
      r.dir.dy * (normalize (b.center.to p)).dy +
      r.dir.dz * (normalize (b.center.to p)).dz)) * hunit

/-- Witness for C1 at the unit sphere centred at `(0,0,5)` and the ray
from the origin along `(0,0,1)`, which hits at `(0,0,4)`. -/
theorem reflect_smooth_mirror_witness :
    ∃ od : direction,
      ((⟨⟨0, 0, 5⟩, 1, ⟨false, ⟨0, 0, 255, 255⟩, 0⟩⟩ : ball).reflect
          ⟨⟨0, 0, 0⟩, ⟨0, 0, 1⟩⟩ ⟨0, 0, 4⟩).1.1 = [⟨⟨0, 0, 4⟩, od⟩] ∧
      ((⟨⟨0, 0, 5⟩, 1, ⟨false, ⟨0, 0, 255, 255⟩, 0⟩⟩ : ball).reflect
          ⟨⟨0, 0, 0⟩, ⟨0, 0, 1⟩⟩ ⟨0, 0, 4⟩).1.2.1 = [1] ∧
      od = ⟨(⟨0, 0, 1⟩ : direction).dx -
              2 * dot ⟨0, 0, 1⟩
                (normalize ((⟨0, 0, 5⟩ : point).to ⟨0, 0, 4⟩)) *
                (normalize ((⟨0, 0, 5⟩ : point).to ⟨0, 0, 4⟩)).dx,
            (⟨0, 0, 1⟩ : direction).dy -
              2 * dot ⟨0, 0, 1⟩
                (normalize ((⟨0, 0, 5⟩ : point).to ⟨0, 0, 4⟩)) *
                (normalize ((⟨0, 0, 5⟩ : point).to ⟨0, 0, 4⟩)).dy,
            (⟨0, 0, 1⟩ : direction).dz -
              2 * dot ⟨0, 0, 1⟩
                (normalize ((⟨0, 0, 5⟩ : point).to ⟨0, 0, 4⟩)) *
                (normalize ((⟨0, 0, 5⟩ : point).to ⟨0, 0, 4⟩)).dz⟩ ∧
      dot od (normalize ((⟨0, 0, 5⟩ : point).to ⟨0, 0, 4⟩)) =
        - dot ⟨0, 0, 1⟩ (normalize ((⟨0, 0, 5⟩ : point).to ⟨0, 0, 4⟩)) := by
  have hsq : Real.sqrt 4 = 2 := by
    rw [show (4 : ℝ) = 2 ^ 2 by norm_num]
    exact Real.sqrt_sq (by norm_num)
  exact reflect_smooth_mirror _ _ _ rfl rfl (by norm_num)
    (by norm_num [ball.intersect, tolerance, ray.scale, hsq,
      point.mk.injEq])

lemma intersect_eq (b : ball) (r : ray) :
    b.intersect r =
      if qdisc b r < 0 then none
      else if qt b r < tolerance then none
      else some (r.scale (qt b r)) := rfl

lemma qa_eq_norm2 (b : ball) (r : ray) : qa b r = norm2 r.dir := rfl

lemma qc_eq (b : ball) (r : ray) :
    qc b r = norm2 (b.center.to r.src) - b.radius * b.radius := rfl

lemma norm_scale (d : direction) (f : ℝ) :
    norm (d.scale f) = |f| * norm d := by
  simp only [norm, norm2, direction.scale]
  rw [show f * d.dx * (f * d.dx) + f * d.dy * (f * d.dy) +
      f * d.dz * (f * d.dz) =
      f ^ 2 * (d.dx * d.dx + d.dy * d.dy + d.dz * d.dz) by ring]
  rw [Real.sqrt_mul (sq_nonneg f), Real.sqrt_sq_eq_abs]

lemma src_to_scale (r : ray) (f : ℝ) :
    r.src.to (r.scale f) = r.dir.scale f := by
  simp only [point.to, ray.scale, direction.scale]
  congr 1 <;> ring

/-- C2 (amended): `intersect` behaves as the quadratic-formula spec says:
no hit when the discriminant is negative or the smaller root is below the
tolerance `0.001`, otherwise the point at that root.  A ray aimed at the
centre with direction `center - src` from distance `D` hits at distance
`D - radius` provided `D - radius ≥ 0.001·D` (the amendment: `D > radius`
alone is not enough, see the counterexample); a ray whose closest line
approach to the centre exceeds the radius misses; a ray starting inside
the sphere reports no hit. -/
theorem intersect_spec :
    (∀ (b : ball) (r : ray), qdisc b r < 0 → b.intersect r = none) ∧
    (∀ (b : ball) (r : ray), qt b r < tolerance → b.intersect r = none) ∧
    (∀ (b : ball) (r : ray), 0 ≤ qdisc b r → tolerance ≤ qt b r →
      b.intersect r = some (r.scale (qt b r))) ∧
    (∀ (b : ball) (src : point), 0 < b.radius →
      tolerance * norm (src.to b.center) ≤
        norm (src.to b.center) - b.radius →
      ∃ q : point, b.intersect ⟨src, src.to b.center⟩ = some q ∧
        norm (src.to q) = norm (src.to b.center) - b.radius) ∧
    (∀ (b : ball) (r : ray), 0 < norm2 r.dir →
      b.radius * b.radius <
        norm2 (b.center.to r.src) -
          dot (b.center.to r.src) r.dir * dot (b.center.to r.src) r.dir /
            norm2 r.dir →
      b.intersect r = none) ∧
    (∀ (b : ball) (r : ray),
      norm2 (b.center.to r.src) < b.radius * b.radius →
      b.intersect r = none) := by
  refine ⟨?_, ?_, ?_, ?_, ?_, ?_⟩
  · intro b r h
    rw [intersect_eq, if_pos h]
  · intro b r h
    rw [intersect_eq]
    split_ifs <;> rfl
  · intro b r h1 h2
    rw [intersect_eq, if_neg (not_lt.mpr h1), if_neg (not_lt.mpr h2)]
  · intro b src hR htol
    set D := norm (src.to b.center) with hD
    have hDnn : 0 ≤ D := Real.sqrt_nonneg _
    have hDpos : 0 < D := by
      rcases hDnn.lt_or_eq with h | h
      · exact h
      · exfalso
        rw [← h] at htol
        rw [tolerance] at htol
        norm_num at htol
        linarith
    have hD0 : D ≠ 0 := ne_of_gt hDpos
    have hD2 : D * D = norm2 (src.to b.center) := norm_sq _
    set r : ray := ⟨src, src.to b.center⟩ with hr
    have hqa : qa b r = D * D := by
      rw [hD2]
      rfl
    have hqb : qb b r = -2 * (D * D) := by
      rw [hD2]
      simp only [qb, hr, point.to, norm2]
      ring
    have hqc : qc b r = D * D - b.radius * b.radius := by
      rw [hD2]
      simp only [qc, hr, point.to, norm2]
      ring
    have hdisc : qdisc b r = (2 * D * b.radius) ^ 2 := by
      simp only [qdisc]
      rw [hqa, hqb, hqc]
      ring
    have hsqrt : Real.sqrt (qdisc b r) = 2 * D * b.radius := by
      rw [hdisc]
      exact Real.sqrt_sq
        (mul_nonneg (mul_nonneg (by norm_num) hDnn) hR.le)
    have hqt : qt b r = (D - b.radius) / D := by
      simp only [qt]
      rw [hsqrt, hqb, hqa]
      field_simp
      ring
    have htol2 : tolerance ≤ qt b r := by
      rw [hqt, le_div_iff hDpos]
      linarith
    refine ⟨r.scale (qt b r), ?_, ?_⟩
    · rw [intersect_eq, if_neg, if_neg (not_lt.mpr htol2)]
      rw [hdisc]
      exact not_lt.mpr (sq_nonneg _)
    · have hsts : src.to (r.scale (qt b r)) = r.dir.scale (qt b r) :=
        src_to_scale r (qt b r)
      rw [hsts, norm_scale]
      have hqtpos : 0 < qt b r := by
        have ht : (0 : ℝ) < tolerance := by rw [tolerance]; norm_num
        linarith
      rw [abs_of_pos hqtpos, hqt]
      have hnormdir : norm r.dir = D := rfl
      rw [hnormdir]
      field_simp
  · intro b r hd hclose
    rw [intersect_eq, if_pos]
    have h1 : dot (b.center.to r.src) r.dir * dot (b.center.to r.src) r.dir <
        norm2 r.dir * (norm2 (b.center.to r.src) - b.radius * b.radius) := by
      have h2 : dot (b.center.to r.src) r.dir * dot (b.center.to r.src) r.dir /
          norm2 r.dir < norm2 (b.center.to r.src) - b.radius * b.radius := by
        linarith
      calc dot (b.center.to r.src) r.dir * dot (b.center.to r.src) r.dir
          = dot (b.center.to r.src) r.dir * dot (b.center.to r.src) r.dir /
              norm2 r.dir * norm2 r.dir := by field_simp
        _ < (norm2 (b.center.to r.src) - b.radius * b.radius) * norm2 r.dir :=
              (mul_lt_mul_right hd).mpr h2
        _ = norm2 r.dir * (norm2 (b.center.to r.src) - b.radius * b.radius) :=
              by ring
    have hq : qdisc b r =
        4 * (dot (b.center.to r.src) r.dir * dot (b.center.to r.src) r.dir -
          norm2 r.dir * (norm2 (b.center.to r.src) - b.radius * b.radius)) := by
      simp only [qdisc, qa, qb, qc, dot, norm2, point.to]
      ring
    rw [hq]
    linarith
  · intro b r hin
    have hqc_neg : qc b r < 0 := by
      rw [qc_eq]
      linarith
    by_cases hqa0 : qa b r = 0
    · have hnn := norm2_nonneg r.dir
      rw [← qa_eq_norm2 b r] at hnn
      have hnx := mul_self_nonneg r.dir.dx
      have hny := mul_self_nonneg r.dir.dy
      have hnz := mul_self_nonneg r.dir.dz
      rw [qa] at hqa0
      have hx0 : r.dir.dx = 0 := mul_self_eq_zero.mp (by linarith)
      have hy0 : r.dir.dy = 0 := mul_self_eq_zero.mp (by linarith)
      have hz0 : r.dir.dz = 0 := mul_self_eq_zero.mp (by linarith)
      have hqb0 : qb b r = 0 := by rw [qb, hx0, hy0, hz0]; ring
      have hdisc0 : qdisc b r = 0 := by
        rw [qdisc, hqb0, qa, hx0, hy0, hz0]
        ring
      have hqt0 : qt b r = 0 := by
        rw [qt, hqb0, hdisc0, qa, hx0, hy0, hz0, Real.sqrt_zero]
        simp
      rw [intersect_eq, if_neg (by rw [hdisc0]; norm_num), if_pos]
      rw [hqt0, tolerance]
      norm_num
    · have hqa_pos : 0 < qa b r := by
        have hnn := norm2_nonneg r.dir
        rw [← qa_eq_norm2 b r] at hnn
        exact lt_of_le_of_ne hnn (Ne.symm hqa0)
      have hdiscpos : qb b r * qb b r < qdisc b r := by
        rw [qdisc]
        nlinarith
      have hsqrt2 : |qb b r| < Real.sqrt (qdisc b r) := by
        have h1 := Real.sqrt_lt_sqrt (mul_self_nonneg (qb b r)) hdiscpos
        rwa [Real.sqrt_mul_self_eq_abs] at h1
      have hnum : -qb b r - Real.sqrt (qdisc b r) < 0 := by
        have := neg_le_abs (qb b r)
        linarith
      have hqtneg : qt b r < 0 :=
        div_neg_of_neg_of_pos hnum (by linarith)
      rw [intersect_eq, if_neg, if_pos]
      · rw [tolerance]
        linarith
      · exact not_lt.mpr (le_of_lt (lt_of_le_of_lt (mul_self_nonneg _)
          hdiscpos))

/-- C2 counterexample: the ray from the origin aimed directly at the
centre `(1,0,0)` of a sphere of radius `0.9999` (so `D = 1 > radius`)
reports no hit, because the entry parameter `0.0001` falls below the
`0.001` tolerance — the claim asserts a hit at distance `D - radius`. -/
theorem intersect_aimed_counterexample :
    (⟨⟨1, 0, 0⟩, 9999 / 10000, ⟨false, ⟨0, 0, 0, 0⟩, 0⟩⟩ : ball).intersect
        ⟨⟨0, 0, 0⟩, ⟨1, 0, 0⟩⟩ = none ∧
    (⟨0, 0, 0⟩ : point).to ⟨1, 0, 0⟩ = ⟨1, 0, 0⟩ ∧
    norm ((⟨0, 0, 0⟩ : point).to ⟨1, 0, 0⟩) = 1 ∧
    (9999 / 10000 : ℝ) < 1 := by
  have hsq : Real.sqrt (99980001 / 25000000) = 9999 / 5000 := by
    rw [show (99980001 / 25000000 : ℝ) = (9999 / 5000) ^ 2 by norm_num]
    exact Real.sqrt_sq (by norm_num)
  refine ⟨?_, ?_, ?_, by norm_num⟩
  · norm_num [ball.intersect, tolerance, hsq]
  · simp only [point.to]
    norm_num
  · simp only [point.to, norm, norm2]
    norm_num

/-- Witness for C2 (via its aimed-at-centre clause) at the unit sphere
centred at `(0,0,5)`: the ray aimed at the centre hits at distance `4`. -/
theorem intersect_spec_witness :
    ∃ q : point,
      (⟨⟨0, 0, 5⟩, 1, ⟨false, ⟨0, 0, 0, 0⟩, 0⟩⟩ : ball).intersect
          ⟨⟨0, 0, 0⟩, (⟨0, 0, 0⟩ : point).to ⟨0, 0, 5⟩⟩ = some q ∧
      norm ((⟨0, 0, 0⟩ : point).to q) =
        norm ((⟨0, 0, 0⟩ : point).to ⟨0, 0, 5⟩) - 1 := by
  have h5 : norm ((⟨0, 0, 0⟩ : point).to ⟨0, 0, 5⟩) = 5 := by
    simp only [point.to, norm, norm2]
    norm_num
    rw [show (25 : ℝ) = 5 ^ 2 by norm_num]
    exact Real.sqrt_sq (by norm_num)
  exact intersect_spec.2.2.2.1 _ _ (by norm_num)
    (by rw [h5, tolerance]; norm_num)

/-- C8 counterexample: `reflect` has a pointer receiver, and on a ball
whose material roughness is `2` the clamp `b.mat.roughness = 1` writes
through it — the stored material changes, so the returned ball differs
from the original. -/
theorem reflect_mutates_roughness_counterexample :
    ((⟨⟨0, 0, 0⟩, 1, ⟨false, ⟨0, 0, 0, 0⟩, 2⟩⟩ : ball).reflect
        ⟨⟨0, 0, 0⟩, ⟨0, 0, 1⟩⟩ ⟨0, 0, 1⟩).2 ≠
      (⟨⟨0, 0, 0⟩, 1, ⟨false, ⟨0, 0, 0, 0⟩, 2⟩⟩ : ball) := by
  intro h
  have h2 := congrArg (fun bb : ball => bb.mat.roughness) h
  norm_num [ball.reflect] at h2

/-- C8 (amended): for any call whose material roughness is at most `1`
(including every luminous or smooth material), `reflect` returns the ball
unchanged; only a roughness above `1` is clamped and written back. -/
theorem reflect_preserves_ball (b : ball) (r : ray) (p : point)
    (h : b.mat.roughness ≤ 1) : (b.reflect r p).2 = b := by
  simp only [ball.reflect]
  split_ifs with h1 h2 h3 <;> first | rfl | linarith

/-- Witness for C8's amended theorem on a roughness-`1` ball. -/
theorem reflect_preserves_ball_witness :
    ((⟨⟨0, 0, 0⟩, 1, ⟨false, ⟨0, 0, 0, 0⟩, 1⟩⟩ : ball).reflect
        ⟨⟨0, 0, 0⟩, ⟨0, 0, 1⟩⟩ ⟨0, 0, 1⟩).2 =
      ⟨⟨0, 0, 0⟩, 1, ⟨false, ⟨0, 0, 0, 0⟩, 1⟩⟩ :=
  reflect_preserves_ball _ _ _ (by norm_num)

/-- C9: every weight returned by `reflect` is non-negative, and whenever
the outgoing ray set is non-empty (any non-luminous hit, whose ideal ray
carries weight `1.0`) the weights sum to a strictly positive total, so
`getColor`'s division by the total weight never divides by zero. -/
theorem reflect_weights_nonneg_sum_pos (b : ball) (r : ray) (p : point) :
    (∀ w ∈ (b.reflect r p).1.2.1, 0 ≤ w) ∧
    ((b.reflect r p).1.1 ≠ [] → 0 < ((b.reflect r p).1.2.1).sum) := by
  have hrep : ∀ n : ℕ, (∀ w ∈ (1 : ℝ) :: List.replicate n (1 / 72), 0 ≤ w) ∧
      0 < ((1 : ℝ) :: List.replicate n (1 / 72)).sum := by
    intro n
    refine ⟨?_, ?_⟩
    · intro w hw
      simp only [List.mem_cons] at hw
      rcases hw with h | h
      · rw [h]
        norm_num
      · rw [List.eq_of_mem_replicate h]
        norm_num
    · simp only [List.sum_cons, List.sum_replicate, nsmul_eq_mul]
      positivity
  simp only [ball.reflect]
  split_ifs with h1 h2 h3
  · refine ⟨?_, ?_⟩
    · intro w hw
      simp at hw
    · intro hne
      exact absurd rfl hne
  · exact ⟨(hrep _).1, fun _ => (hrep _).2⟩
  · exact ⟨(hrep _).1, fun _ => (hrep _).2⟩
  · refine ⟨?_, ?_⟩
    · intro w hw
      simp only [List.mem_singleton] at hw
      rw [hw]
      norm_num
    · intro _
      simp

/-- Witness for C9 on a non-luminous smooth ball: the outgoing set is the
single ideal ray, so the weight total `1` is strictly positive. -/
theorem reflect_weights_nonneg_sum_pos_witness :
    0 < (((⟨⟨0, 0, 5⟩, 1, ⟨false, ⟨0, 0, 255, 255⟩, 0⟩⟩ : ball).reflect
        ⟨⟨0, 0, 0⟩, ⟨0, 0, 1⟩⟩ ⟨0, 0, 4⟩).1.2.1).sum :=
  (reflect_weights_nonneg_sum_pos _ _ _).2
    (by norm_num [ball.reflect])

lemma hitInv_step (r : ray) (objs : List ball) (i : ℕ) (o : ball)
    (acc : Option (ℕ × point × ℝ)) (ho : objs.get? i = some o)
    (hinv : hitInv r objs i acc) :
    hitInv r objs (i + 1) (accUpdate r i o acc) := by
  rcases hx : o.intersect r with _ | q
  · rcases acc with _ | ⟨mi, mp, md⟩
    · simp only [accUpdate, hx]
      intro j hj o' ho'
      rcases Nat.lt_succ_iff_lt_or_eq.mp hj with h | h
      · exact hinv j h o' ho'
      · subst h
        rw [ho] at ho'
        rw [← Option.some.inj ho']
        exact hx
    · obtain ⟨hmi, hex, hmd, hle, hlt⟩ := hinv
      simp only [accUpdate, hx]
      refine ⟨Nat.lt_succ_of_lt hmi, hex, hmd, ?_, hlt⟩
      intro j hj o' q' ho' hq'
      rcases Nat.lt_succ_iff_lt_or_eq.mp hj with h | h
      · exact hle j h o' q' ho' hq'
      · subst h
        rw [ho] at ho'
        rw [← Option.some.inj ho'] at hq'
        rw [hx] at hq'
        cases hq'
  · rcases acc with _ | ⟨mi, mp, md⟩
    · simp only [accUpdate, hx]
      refine ⟨Nat.lt_succ_self i, ⟨o, ho, hx⟩, rfl, ?_, ?_⟩
      · intro j hj o' q' ho' hq'
        rcases Nat.lt_succ_iff_lt_or_eq.mp hj with h | h
        · rw [hinv j h o' ho'] at hq'
          cases hq'
        · subst h
          rw [ho] at ho'
          have hqq : q = q' := by
            rw [← Option.some.inj ho'] at hq'
            rw [hx] at hq'
            exact Option.some.inj hq'
          rw [← hqq]
      · intro j hj o' q' ho' hq'
        rw [hinv j hj o' ho'] at hq'
        cases hq'
    · obtain ⟨hmi, hex, hmd, hle, hlt⟩ := hinv
      simp only [accUpdate, hx]
      split_ifs with hcmp
      · refine ⟨Nat.lt_succ_self i, ⟨o, ho, hx⟩, rfl, ?_, ?_⟩
        · intro j hj o' q' ho' hq'
          rcases Nat.lt_succ_iff_lt_or_eq.mp hj with h | h
          · exact le_of_lt (lt_of_lt_of_le hcmp (hle j h o' q' ho' hq'))
          · subst h
            rw [ho] at ho'
            have hqq : q = q' := by
              rw [← Option.some.inj ho'] at hq'
              rw [hx] at hq'
              exact Option.some.inj hq'
            rw [← hqq]
        · intro j hj o' q' ho' hq'
          exact lt_of_lt_of_le hcmp (hle j hj o' q' ho' hq')
      · refine ⟨Nat.lt_succ_of_lt hmi, hex, hmd, ?_, hlt⟩
        intro j hj o' q' ho' hq'
        rcases Nat.lt_succ_iff_lt_or_eq.mp hj with h | h
        · exact hle j h o' q' ho' hq'
        · subst h
          rw [ho] at ho'
          have hqq : q = q' := by
            rw [← Option.some.inj ho'] at hq'
            rw [hx] at hq'
            exact Option.some.inj hq'
          rw [← hqq]
          exact not_lt.mp hcmp

lemma nearestHitAux_spec (r : ray) (objs : List ball) :
    ∀ (l : List ball) (i : ℕ) (acc : Option (ℕ × point × ℝ)),
      (∀ k, l.get? k = objs.get? (i + k)) →
      i + l.length = objs.length →
      hitInv r objs i acc →
      hitInv r objs objs.length (nearestHitAux r l i acc)
  | [], i, acc => by
      intro hag hlen hinv
      have hi : i = objs.length := by simpa using hlen
      show hitInv r objs objs.length acc
      rw [← hi]
      exact hinv
  | o :: rest, i, acc => by
      intro hag hlen hinv
      have ho : objs.get? i = some o := by
        simpa using (hag 0).symm
      show hitInv r objs objs.length
        (nearestHitAux r rest (i + 1) (accUpdate r i o acc))
      refine nearestHitAux_spec r objs rest (i + 1) (accUpdate r i o acc)
        ?_ ?_ (hitInv_step r objs i o acc ho hinv)
      · intro k
        have := hag (k + 1)
        simpa [show i + (k + 1) = i + 1 + k by omega] using this
      · simp only [List.length_cons] at hlen
        omega

lemma findNearestHit_inv (s : scene) (r : ray) :
    hitInv r s.objects s.objects.length (findNearestHit s r) := by
  apply nearestHitAux_spec r s.objects s.objects 0 none
  · intro k
    simp
  · simp
  · intro j hj o ho
    exact absurd hj (Nat.not_lt_zero j)

lemma findNearestHit_none_iff (s : scene) (r : ray) :
    findNearestHit s r = none ↔
      ∀ j o, s.objects.get? j = some o → o.intersect r = none := by
  have hinv := findNearestHit_inv s r
  constructor
  · intro h j o ho
    rw [h] at hinv
    have hj : j < s.objects.length := (List.get?_eq_some.mp ho).1
    exact hinv j hj o ho
  · intro hall
    rcases hres : findNearestHit s r with _ | ⟨mi, mp, md⟩
    · rfl
    · rw [hres] at hinv
      obtain ⟨hmi, ⟨o, ho, hx⟩, _⟩ := hinv
      rw [hall mi o ho] at hx
      cases hx

lemma findNearestHit_some_spec (s : scene) (r : ray) (mi : ℕ) (p : point)
    (d : ℝ) (h : findNearestHit s r = some (mi, p, d)) :
    (∃ o, s.objects.get? mi = some o ∧ o.intersect r = some p) ∧
    d = norm (r.src.to p) ∧
    (∀ j o q, s.objects.get? j = some o → o.intersect r = some q →
      d ≤ norm (r.src.to q)) ∧
    (∀ j o q, j < mi → s.objects.get? j = some o → o.intersect r = some q →
      d < norm (r.src.to q)) := by
  have hinv := findNearestHit_inv s r
  rw [h] at hinv
  obtain ⟨hmi, hex, hmd, hle, hlt⟩ := hinv
  refine ⟨hex, hmd, ?_, fun j o q hji ho hq => hlt j hji o q ho hq⟩
  intro j o q ho hq
  have hj : j < s.objects.length := (List.get?_eq_some.mp ho).1
  exact hle j hj o q ho hq

lemma example_green_miss_aimed : greenBall.intersect aimedRay = none := by
  have h : qdisc greenBall aimedRay < 0 := by
    unfold qdisc qa qb qc greenBall aimedRay
    norm_num
  rw [intersect_eq, if_pos h]

lemma example_white_hit_aimed :
    whiteBall.intersect aimedRay = some ⟨12, 0, 16⟩ := by
  have hdisc : qdisc whiteBall aimedRay = 9000000 := by
    unfold qdisc qa qb qc whiteBall aimedRay
    norm_num
  have hsqrt : Real.sqrt 9000000 = 3000 := by
    rw [show (9000000 : ℝ) = 3000 ^ 2 by norm_num]
    exact Real.sqrt_sq (by norm_num)
  have hqt : qt whiteBall aimedRay = 2 / 5 := by
    unfold qt
    rw [hdisc, hsqrt]
    unfold qa qb whiteBall aimedRay
    norm_num
  rw [intersect_eq, if_neg (by rw [hdisc]; norm_num),
    if_neg (by rw [hqt, tolerance]; norm_num), hqt]
  unfold aimedRay
  simp only [ray.scale, point.mk.injEq]
  norm_num

lemma example_nearest :
    findNearestHit exampleScene aimedRay = some (1, ⟨12, 0, 16⟩, 20) := by
  have h20 : norm (aimedRay.src.to ⟨12, 0, 16⟩) = 20 := by
    unfold aimedRay
    simp only [point.to, norm, norm2]
    norm_num
    rw [show (400 : ℝ) = 20 ^ 2 by norm_num]
    exact Real.sqrt_sq (by norm_num)
  unfold findNearestHit exampleScene
  simp only [nearestHitAux, accUpdate, example_green_miss_aimed,
    example_white_hit_aimed, h20]

/-- C5: the nearest-hit query of `getColor` linearly scans the objects
and keeps the hit with the smallest Euclidean distance from the ray
origin, first-seen winning exact ties (a later hit replaces the current
one only when strictly closer); shading then proceeds with the selected
object and hit point. -/
theorem findNearestHit_spec (s : scene) (r : ray) :
    (findNearestHit s r = none ↔
      ∀ j o, s.objects.get? j = some o → o.intersect r = none) ∧
    (∀ mi p d, findNearestHit s r = some (mi, p, d) →
      (∃ o, s.objects.get? mi = some o ∧ o.intersect r = some p) ∧
      d = norm (r.src.to p) ∧
      (∀ j o q, s.objects.get? j = some o → o.intersect r = some q →
        d ≤ norm (r.src.to q)) ∧
      (∀ j o q, j < mi → s.objects.get? j = some o →
        o.intersect r = some q → d < norm (r.src.to q))) ∧
    (∀ mi p d fuel, findNearestHit s r = some (mi, p, d) →
      getColor s (fuel + 1) r =
        if ((s.objects.getD mi dummyBall).reflect r p).1.1.isEmpty then
          ((s.objects.getD mi dummyBall).reflect r p).1.2.2
        else
          shadeBlend ((s.objects.getD mi dummyBall).reflect r p).1.2.2
            ((((s.objects.getD mi dummyBall).reflect r p).1.1.zip
              ((s.objects.getD mi dummyBall).reflect r p).1.2.1).map
              fun ow => (ow.2, getColor s fuel ow.1))) := by
  refine ⟨findNearestHit_none_iff s r,
    fun mi p d h => findNearestHit_some_spec s r mi p d h, ?_⟩
  intro mi p d fuel h
  simp only [getColor, h]

/-- Witness for C5 on the example scene: the aimed camera ray's nearest
hit is the luminous sphere (index 1) at `(12,0,16)`, and the recorded
distance `20` is the Euclidean distance to that point. -/
theorem findNearestHit_spec_witness :
    (∃ o, exampleScene.objects.get? 1 = some o ∧
      o.intersect aimedRay = some ⟨12, 0, 16⟩) ∧
    (20 : ℝ) = norm (aimedRay.src.to ⟨12, 0, 16⟩) := by
  have h := (findNearestHit_spec exampleScene aimedRay).2.1 1 ⟨12, 0, 16⟩ 20
    example_nearest
  exact ⟨h.1, h.2.1⟩

/-- C6: a luminous hit makes `reflect` return no outgoing rays together
with the material's colour, and `getColor` then returns that colour with
no recursive call (the result does not depend on the remaining fuel). -/
theorem luminous_hit_shade :
    (∀ (b : ball) (r : ray) (p : point), b.mat.luminous = true →
      b.reflect r p = (([], [], b.mat.color), b)) ∧
    (∀ (s : scene) (r : ray) (fuel mi : ℕ) (p : point) (d : ℝ),
      findNearestHit s r = some (mi, p, d) →
      (s.objects.getD mi dummyBall).mat.luminous = true →
      getColor s (fuel + 1) r = (s.objects.getD mi dummyBall).mat.color) := by
  have hrefl : ∀ (b : ball) (r : ray) (p : point), b.mat.luminous = true →
      b.reflect r p = (([], [], b.mat.color), b) := by
    intro b r p h
    simp [ball.reflect, h]
  refine ⟨hrefl, ?_⟩
  intro s r fuel mi p d hfind hlum
  simp only [getColor, hfind]
  rw [hrefl _ _ _ hlum]
  simp

/-- Witness for C6: in the example scene the aimed camera ray hits only
the luminous white sphere and shades to exactly `(255,255,255,255)`. -/
theorem luminous_hit_shade_witness :
    getColor exampleScene 1 aimedRay = ⟨255, 255, 255, 255⟩ :=
  luminous_hit_shade.2 exampleScene aimedRay 0 1 ⟨12, 0, 16⟩ 20
    example_nearest rfl

/-- C7: a ray that intersects no object in the scene shades to the
scene's background colour. -/
theorem miss_background (s : scene) (r : ray) (fuel : ℕ)
    (hmiss : ∀ j o, s.objects.get? j = some o → o.intersect r = none) :
    getColor s (fuel + 1) r = s.background := by
  have hnone : findNearestHit s r = none :=
    (findNearestHit_none_iff s r).mpr hmiss
  simp only [getColor, hnone]

/-- Witness for C7: in the example scene the upward camera ray misses
both spheres and shades to exactly `(32,32,32,255)`. -/
theorem miss_background_witness :
    getColor exampleScene 1 upRay = ⟨32, 32, 32, 255⟩ := by
  refine miss_background exampleScene upRay 0 ?_
  intro j o hj
  match j with
  | 0 =>
      have ho : o = greenBall := by
        simp only [exampleScene, List.get?] at hj
        exact (Option.some.inj hj).symm
      subst ho
      have h : qdisc greenBall upRay < 0 := by
        unfold qdisc qa qb qc greenBall upRay
        norm_num
      rw [intersect_eq, if_pos h]
  | 1 =>
      have ho : o = whiteBall := by
        simp only [exampleScene, List.get?] at hj
        exact (Option.some.inj hj).symm
      subst ho
      have h : qdisc whiteBall upRay < 0 := by
        unfold qdisc qa qb qc whiteBall upRay
        norm_num
      rw [intersect_eq, if_pos h]
  | j + 2 =>
      simp only [exampleScene, List.get?] at hj
      exact Option.noConfusion hj

lemma shade_foldl (cc : Color) (pairs : List (ℝ × Color)) :
    ∀ a : ℝ × ℝ × ℝ × ℝ,
      pairs.foldl
        (fun acc wc =>
          (acc.1 + wc.1,
            acc.2.1 + ((wc.2.r * 257 : ℕ) : ℝ) / ((wc.2.a * 257 : ℕ) : ℝ) *
              ((cc.r * 257 : ℕ) : ℝ) * wc.1,
            acc.2.2.1 + ((wc.2.g * 257 : ℕ) : ℝ) / ((wc.2.a * 257 : ℕ) : ℝ) *
              ((cc.g * 257 : ℕ) : ℝ) * wc.1,
            acc.2.2.2 + ((wc.2.b * 257 : ℕ) : ℝ) / ((wc.2.a * 257 : ℕ) : ℝ) *
              ((cc.b * 257 : ℕ) : ℝ) * wc.1)) a =
      (a.1 + (pairs.map Prod.fst).sum,
        a.2.1 + (pairs.map fun wc => ((wc.2.r * 257 : ℕ) : ℝ) /
          ((wc.2.a * 257 : ℕ) : ℝ) * ((cc.r * 257 : ℕ) : ℝ) * wc.1).sum,
        a.2.2.1 + (pairs.map fun wc => ((wc.2.g * 257 : ℕ) : ℝ) /
          ((wc.2.a * 257 : ℕ) : ℝ) * ((cc.g * 257 : ℕ) : ℝ) * wc.1).sum,
        a.2.2.2 + (pairs.map fun wc => ((wc.2.b * 257 : ℕ) : ℝ) /
          ((wc.2.a * 257 : ℕ) : ℝ) * ((cc.b * 257 : ℕ) : ℝ) * wc.1).sum) := by
  induction pairs with
  | nil =>
      intro a
      simp
  | cons w rest ih =>
      intro a
      simp only [List.foldl_cons, List.map_cons, List.sum_cons, ih,
        Prod.mk.injEq]
      refine ⟨by ring, by ring, by ring, by ring⟩

lemma shadeAccum_eq (cc : Color) (pairs : List (ℝ × Color)) :
    shadeAccum cc pairs =
      ((pairs.map Prod.fst).sum,
        (pairs.map fun wc => ((wc.2.r * 257 : ℕ) : ℝ) /
          ((wc.2.a * 257 : ℕ) : ℝ) * ((cc.r * 257 : ℕ) : ℝ) * wc.1).sum,
        (pairs.map fun wc => ((wc.2.g * 257 : ℕ) : ℝ) /
          ((wc.2.a * 257 : ℕ) : ℝ) * ((cc.g * 257 : ℕ) : ℝ) * wc.1).sum,
        (pairs.map fun wc => ((wc.2.b * 257 : ℕ) : ℝ) /
          ((wc.2.a * 257 : ℕ) : ℝ) * ((cc.b * 257 : ℕ) : ℝ) * wc.1).sum) := by
  rw [shadeAccum, shade_foldl cc pairs (0, 0, 0, 0)]
  simp

lemma shadeBlend_eq (cc : Color) (pairs : List (ℝ × Color)) :
    shadeBlend cc pairs =
      ⟨f2u8 ((pairs.map fun wc => ((wc.2.r * 257 : ℕ) : ℝ) /
            ((wc.2.a * 257 : ℕ) : ℝ) * ((cc.r * 257 : ℕ) : ℝ) * wc.1).sum /
          (pairs.map Prod.fst).sum / ((cc.a * 257 : ℕ) : ℝ) * 255),
        f2u8 ((pairs.map fun wc => ((wc.2.g * 257 : ℕ) : ℝ) /
            ((wc.2.a * 257 : ℕ) : ℝ) * ((cc.g * 257 : ℕ) : ℝ) * wc.1).sum /
          (pairs.map Prod.fst).sum / ((cc.a * 257 : ℕ) : ℝ) * 255),
        f2u8 ((pairs.map fun wc => ((wc.2.b * 257 : ℕ) : ℝ) /
            ((wc.2.a * 257 : ℕ) : ℝ) * ((cc.b * 257 : ℕ) : ℝ) * wc.1).sum /
          (pairs.map Prod.fst).sum / ((cc.a * 257 : ℕ) : ℝ) * 255),
        255⟩ := by
  simp only [shadeBlend, shadeAccum_eq]

/-- C3: for a shading event with base colour `cc` and outgoing rays of
weights `w_i` (paired with their recursively shaded colours), each channel
of `shadeBlend` is the weighted average `Σ(w_i · channel_i) / W` — with
`channel_i` the child's channel normalised by its own alpha times the base
channel — rescaled by the base alpha into the 0–255 range; and the result
is invariant under any permutation of the outgoing-ray order. -/
theorem shadeBlend_weighted_average :
    (∀ (cc : Color) (pairs : List (ℝ × Color)),
      shadeBlend cc pairs =
        ⟨f2u8 ((pairs.map fun wc => wc.1 * (((wc.2.r * 257 : ℕ) : ℝ) /
              ((wc.2.a * 257 : ℕ) : ℝ) * ((cc.r * 257 : ℕ) : ℝ))).sum /
            (pairs.map Prod.fst).sum / ((cc.a * 257 : ℕ) : ℝ) * 255),
          f2u8 ((pairs.map fun wc => wc.1 * (((wc.2.g * 257 : ℕ) : ℝ) /
              ((wc.2.a * 257 : ℕ) : ℝ) * ((cc.g * 257 : ℕ) : ℝ))).sum /
            (pairs.map Prod.fst).sum / ((cc.a * 257 : ℕ) : ℝ) * 255),
          f2u8 ((pairs.map fun wc => wc.1 * (((wc.2.b * 257 : ℕ) : ℝ) /
              ((wc.2.a * 257 : ℕ) : ℝ) * ((cc.b * 257 : ℕ) : ℝ))).sum /
            (pairs.map Prod.fst).sum / ((cc.a * 257 : ℕ) : ℝ) * 255),
          255⟩) ∧
    (∀ (cc : Color) (pairs pairs' : List (ℝ × Color)), pairs.Perm pairs' →
      shadeBlend cc pairs = shadeBlend cc pairs') := by
  constructor
  · intro cc pairs
    rw [shadeBlend_eq]
    have hr : (fun wc : ℝ × Color => ((wc.2.r * 257 : ℕ) : ℝ) /
        ((wc.2.a * 257 : ℕ) : ℝ) * ((cc.r * 257 : ℕ) : ℝ) * wc.1) =
        fun wc : ℝ × Color => wc.1 * (((wc.2.r * 257 : ℕ) : ℝ) /
          ((wc.2.a * 257 : ℕ) : ℝ) * ((cc.r * 257 : ℕ) : ℝ)) := by
      funext wc
      ring
    have hg : (fun wc : ℝ × Color => ((wc.2.g * 257 : ℕ) : ℝ) /
        ((wc.2.a * 257 : ℕ) : ℝ) * ((cc.g * 257 : ℕ) : ℝ) * wc.1) =
        fun wc : ℝ × Color => wc.1 * (((wc.2.g * 257 : ℕ) : ℝ) /
          ((wc.2.a * 257 : ℕ) : ℝ) * ((cc.g * 257 : ℕ) : ℝ)) := by
      funext wc
      ring
    have hb : (fun wc : ℝ × Color => ((wc.2.b * 257 : ℕ) : ℝ) /
        ((wc.2.a * 257 : ℕ) : ℝ) * ((cc.b * 257 : ℕ) : ℝ) * wc.1) =
        fun wc : ℝ × Color => wc.1 * (((wc.2.b * 257 : ℕ) : ℝ) /
          ((wc.2.a * 257 : ℕ) : ℝ) * ((cc.b * 257 : ℕ) : ℝ)) := by
      funext wc
      ring
    rw [hr, hg, hb]
  · intro cc pairs pairs' hperm
    rw [shadeBlend_eq, shadeBlend_eq]
    rw [(hperm.map Prod.fst).sum_eq,
      (hperm.map (fun wc : ℝ × Color => ((wc.2.r * 257 : ℕ) : ℝ) /
        ((wc.2.a * 257 : ℕ) : ℝ) * ((cc.r * 257 : ℕ) : ℝ) * wc.1)).sum_eq,
      (hperm.map (fun wc : ℝ × Color => ((wc.2.g * 257 : ℕ) : ℝ) /
        ((wc.2.a * 257 : ℕ) : ℝ) * ((cc.g * 257 : ℕ) : ℝ) * wc.1)).sum_eq,
      (hperm.map (fun wc : ℝ × Color => ((wc.2.b * 257 : ℕ) : ℝ) /
        ((wc.2.a * 257 : ℕ) : ℝ) * ((cc.b * 257 : ℕ) : ℝ) * wc.1)).sum_eq]

/-- Witness for C3's permutation clause: swapping the two outgoing rays
of a concrete shading event leaves the blended colour unchanged. -/
theorem shadeBlend_weighted_average_witness :
    shadeBlend ⟨255, 255, 255, 255⟩
        [(1, ⟨10, 20, 30, 255⟩), (2, ⟨40, 50, 60, 255⟩)] =
      shadeBlend ⟨255, 255, 255, 255⟩
        [(2, ⟨40, 50, 60, 255⟩), (1, ⟨10, 20, 30, 255⟩)] :=
  shadeBlend_weighted_average.2 _ _ _ (List.Perm.swap _ _ _)

lemma dot_normalize_left (d w : direction) :
    dot (normalize d) w = dot d w / norm d := by
  simp only [dot, normalize]
  ring

lemma dot_normalize_right (w d : direction) :
    dot w (normalize d) = dot w d / norm d := by
  simp only [dot, normalize]
  ring

lemma n1dirTemp_ne_zero (v : direction) : n1dirTemp v ≠ ⟨0, 0, 0⟩ := by
  intro h
  have hx := congrArg direction.dx h
  have hy := congrArg direction.dy h
  simp only [n1dirTemp] at hx hy
  split_ifs at hx hy <;> norm_num at hx hy

lemma dot_n1dirTemp_v (v : direction) : dot (n1dirTemp v) v = 0 := by
  simp only [dot, n1dirTemp]
  split_ifs with h1 h2
  · field_simp
  · field_simp
  · have hx : v.dx = 0 := not_not.mp h1
    have hy : v.dy = 0 := not_not.mp h2
    rw [hx, hy]
    by_cases hz : v.dz = 0
    · rw [hz]
      norm_num
    · field_simp

lemma dot_n2dirTemp_v (v : direction) : dot (n2dirTemp v) v = 0 := by
  simp only [dot, n2dirTemp]
  split_ifs with h1 h2
  · field_simp
  · field_simp
  · have hx : v.dx = 0 := not_not.mp h1
    have hy : v.dy = 0 := not_not.mp h2
    rw [hx, hy]
    by_cases hz : v.dz = 0
    · rw [hz]
      norm_num
    · field_simp

lemma norm_n1dir (v : direction) : norm (n1dir v) = 1 :=
  norm_normalize _ (n1dirTemp_ne_zero v)

lemma dot_n1dir_v (v : direction) : dot (n1dir v) v = 0 := by
  rw [n1dir, dot_normalize_left, dot_n1dirTemp_v]
  simp

lemma gram_schmidt_self (n t : direction) (h : dot n n = 1) :
    dot n ⟨t.dx - dot n t * n.dx, t.dy - dot n t * n.dy,
      t.dz - dot n t * n.dz⟩ = 0 := by
  simp only [dot] at h ⊢
  linear_combination (-(n.dx * t.dx + n.dy * t.dy + n.dz * t.dz)) * h

lemma gram_schmidt_other (n t w : direction) (hn : dot n w = 0)
    (ht : dot t w = 0) :
    dot ⟨t.dx - dot n t * n.dx, t.dy - dot n t * n.dy,
      t.dz - dot n t * n.dz⟩ w = 0 := by
  simp only [dot] at hn ht ⊢
  linear_combination ht - (n.dx * t.dx + n.dy * t.dy + n.dz * t.dz) * hn

lemma dot_n1dir_n2pre (v : direction) : dot (n1dir v) (n2pre v) = 0 := by
  have h1 : dot (n1dir v) (n1dir v) = 1 := by
    rw [dot_self_eq_norm2]
    exact norm2_normalize _ (n1dirTemp_ne_zero v)
  rw [n2pre]
  exact gram_schmidt_self (n1dir v) (n2dirTemp v) h1

lemma dot_n2pre_v (v : direction) : dot (n2pre v) v = 0 := by
  rw [n2pre]
  exact gram_schmidt_other (n1dir v) (n2dirTemp v) v (dot_n1dir_v v)
    (dot_n2dirTemp_v v)

lemma n2pre_ne_zero (v : direction) : n2pre v ≠ ⟨0, 0, 0⟩ := by
  intro h0
  have hx := congrArg direction.dx h0
  have hy := congrArg direction.dy h0
  have hz := congrArg direction.dz h0
  simp only [n2pre] at hx hy hz
  by_cases h1 : v.dx ≠ 0
  · have hty : (n2dirTemp v).dy = 1 := by simp [n2dirTemp, h1]
    have htz : (n2dirTemp v).dz = 2 := by simp [n2dirTemp, h1]
    have hne : (n1dir v).dy = (n1dir v).dz := by
      simp [n1dir, n1dirTemp, normalize, h1]
    rw [hty, hne] at hy
    rw [htz] at hz
    linarith
  · push_neg at h1
    by_cases h2 : v.dy ≠ 0
    · have htx : (n2dirTemp v).dx = 2 := by simp [n2dirTemp, h1, h2]
      have htz : (n2dirTemp v).dz = 1 := by simp [n2dirTemp, h1, h2]
      have hne : (n1dir v).dx = (n1dir v).dz := by
        simp [n1dir, n1dirTemp, normalize, h1, h2]
      rw [htx, hne] at hx
      rw [htz] at hz
      linarith
    · push_neg at h2
      have htx : (n2dirTemp v).dx = 1 := by simp [n2dirTemp, h1, h2]
      have hty : (n2dirTemp v).dy = 2 := by simp [n2dirTemp, h1, h2]
      have hne : (n1dir v).dx = (n1dir v).dy := by
        simp [n1dir, n1dirTemp, normalize, h1, h2]
      rw [htx, hne] at hx
      rw [hty] at hy
      linarith

lemma norm_n2dir (v : direction) : norm (n2dir v) = 1 :=
  norm_normalize _ (n2pre_ne_zero v)

lemma dot_n1dir_n2dir (v : direction) : dot (n1dir v) (n2dir v) = 0 := by
  rw [n2dir, dot_normalize_right, dot_n1dir_n2pre]
  simp

lemma dot_n2dir_v (v : direction) : dot (n2dir v) v = 0 := by
  rw [n2dir, dot_normalize_left, dot_n2pre_v]
  simp

/-- The ring index set of the scatter loop: iteration `k` runs exactly
when its radius `0.01 + 0.05·k` is still at most `5·roughness`, matching
the source's `radius <= 5*roughness` guard over exact reals. -/
lemma ringCount_iff (rough : ℝ) (k : ℕ) :
    k < ringCount rough ↔ (0.01 : ℝ) + 0.05 * k ≤ 5 * rough := by
  unfold ringCount
  split_ifs with h
  · have hnn : (0 : ℤ) ≤ ⌊(5 * rough - 0.01) / 0.05⌋ := by
      apply Int.floor_nonneg.mpr
      apply div_nonneg (by linarith) (by norm_num)
    constructor
    · intro hk
      have hk1 : k ≤ (⌊(5 * rough - 0.01) / 0.05⌋).toNat :=
        Nat.lt_succ_iff.mp hk
      have hk2 : (k : ℤ) ≤ ⌊(5 * rough - 0.01) / 0.05⌋ :=
        (Int.le_toNat hnn).mp hk1
      have hk3 : (k : ℝ) ≤ (5 * rough - 0.01) / 0.05 := by
        exact_mod_cast Int.le_floor.mp hk2
      rw [le_div_iff (by norm_num : (0 : ℝ) < 0.05)] at hk3
      linarith
    · intro hle
      have hk3 : (k : ℝ) ≤ (5 * rough - 0.01) / 0.05 := by
        rw [le_div_iff (by norm_num : (0 : ℝ) < 0.05)]
        linarith
      have hk2 : (k : ℤ) ≤ ⌊(5 * rough - 0.01) / 0.05⌋ := by
        apply Int.le_floor.mpr
        exact_mod_cast hk3
      exact Nat.lt_succ_of_le ((Int.le_toNat hnn).mpr hk2)
  · constructor
    · intro hk
      exact absurd hk (Nat.not_lt_zero k)
    · intro hle
      exfalso
      have : (0 : ℝ) ≤ (k : ℝ) := Nat.cast_nonneg k
      push_neg at h
      nlinarith

lemma flatMap_get?_of_length {α β : Type _} (g : α → List β) (M : ℕ)
    (hM : ∀ a, (g a).length = M) :
    ∀ (l : List α) (k j : ℕ), k < l.length → j < M →
      (l.flatMap g).get? (k * M + j) =
        (l.get? k).bind fun a => (g a).get? j := by
  intro l
  induction l with
  | nil =>
      intro k j hk hj
      exact absurd hk (Nat.not_lt_zero k)
  | cons a rest ih =>
      intro k j hk hj
      rw [List.flatMap_cons]
      cases k with
      | zero =>
          simp only [Nat.zero_mul, Nat.zero_add]
          rw [List.get?_append (by rw [hM a]; exact hj)]
          rfl
      | succ k2 =>
          have hlen : (g a).length ≤ (k2 + 1) * M + j := by
            rw [hM a]
            have h1 : M ≤ (k2 + 1) * M := Nat.le_mul_of_pos_left M
              (Nat.succ_pos k2)
            omega
          rw [List.get?_append_right hlen, hM a]
          have harith : (k2 + 1) * M + j - M = k2 * M + j := by
            have h2 : (k2 + 1) * M = k2 * M + M := by ring
            omega
          rw [harith, ih k2 j (Nat.lt_of_succ_lt_succ hk) hj]
          rfl

lemma fanRays_get (p : point) (od : direction) (rough : ℝ) (k j : ℕ)
    (hk : k < ringCount rough) (hj : j < 72) :
    (fanRays p od rough).get? (k * 72 + j) =
      some ⟨p, od.add (shiftDir od (0.01 + 0.05 * (k : ℝ))
        (((5 * j : ℕ) : ℝ) * (Real.pi / 180)))⟩ := by
  unfold fanRays
  rw [flatMap_get?_of_length _ 72 (fun a => by simp) _ k j
    (by simpa using hk) hj]
  rw [List.get?_range hk]
  simp only [Option.some_bind, List.get?_map, List.get?_range hj,
    Option.map_some']

/-- C4: on a non-luminous sphere with roughness `> 0` (clamped to at most
`1`), `reflect` returns the ideal reflected ray with weight `1.0` followed
by a deterministic fan: one ray per `(radius, angle)` pair with radii
`0.01, 0.06, …` while `≤ 5·roughness` and angles `0°, 5°, …, 355°`, each
scattered direction being the ideal direction plus
`radius·|reflectedDir|·(cos·n1 + sin·n2)` in an orthonormal basis
`{n1, n2}` perpendicular to the reflected direction, each fan ray with
weight `1/72`; the construction is fully deterministic. -/
theorem reflect_rough_fan (b : ball) (r : ray) (p : point)
    (hl : b.mat.luminous = false) (hrough : 0 < b.mat.roughness) :
    ∃ od n1 n2 : direction,
      od = rotateAround r.flip.dir ((getRay p b.center).flip).dir ∧
      n1 = n1dir od ∧ n2 = n2dir od ∧
      norm n1 = 1 ∧ norm n2 = 1 ∧ dot n1 n2 = 0 ∧
      dot n1 od = 0 ∧ dot n2 od = 0 ∧
      (b.reflect r p).1.1 =
        ⟨p, od⟩ :: fanRays p od (min b.mat.roughness 1) ∧
      (b.reflect r p).1.2.1 =
        1 :: List.replicate (ringCount (min b.mat.roughness 1) * 72)
          (1 / 72) ∧
      (∀ k : ℕ, k < ringCount (min b.mat.roughness 1) ↔
        (0.01 : ℝ) + 0.05 * k ≤ 5 * min b.mat.roughness 1) ∧
      (∀ k j : ℕ, k < ringCount (min b.mat.roughness 1) → j < 72 →
        (fanRays p od (min b.mat.roughness 1)).get? (k * 72 + j) =
          some ⟨p, ⟨od.dx + (0.01 + 0.05 * (k : ℝ)) * norm od *
              (Real.cos (((5 * j : ℕ) : ℝ) * (Real.pi / 180)) * n1.dx +
                Real.sin (((5 * j : ℕ) : ℝ) * (Real.pi / 180)) * n2.dx),
            od.dy + (0.01 + 0.05 * (k : ℝ)) * norm od *
              (Real.cos (((5 * j : ℕ) : ℝ) * (Real.pi / 180)) * n1.dy +
                Real.sin (((5 * j : ℕ) : ℝ) * (Real.pi / 180)) * n2.dy),
            od.dz + (0.01 + 0.05 * (k : ℝ)) * norm od *
              (Real.cos (((5 * j : ℕ) : ℝ) * (Real.pi / 180)) * n1.dz +
                Real.sin (((5 * j : ℕ) : ℝ) * (Real.pi / 180)) * n2.dz)⟩⟩) := by
  have hlum2 : ¬(b.mat.luminous = true) := by
    rw [hl]
    simp
  have hclamp : (if 1 < b.mat.roughness then
      { b with mat := { b.mat with roughness := 1 } } else b).mat.roughness
      = min b.mat.roughness 1 := by
    split_ifs with h
    · exact (min_eq_right h.le).symm
    · exact (min_eq_left (not_lt.mp h)).symm
  have hreflect : (b.reflect r p).1 =
      (⟨p, rotateAround r.flip.dir ((getRay p b.center).flip).dir⟩ ::
          fanRays p (rotateAround r.flip.dir ((getRay p b.center).flip).dir)
            (min b.mat.roughness 1),
        1 :: List.replicate (ringCount (min b.mat.roughness 1) * 72) (1 / 72),
        b.mat.color) := by
    unfold ball.reflect
    rw [if_neg hlum2, if_pos hrough]
    simp only [hclamp]
  refine ⟨rotateAround r.flip.dir ((getRay p b.center).flip).dir,
    n1dir _, n2dir _, rfl, rfl, rfl, norm_n1dir _, norm_n2dir _,
    dot_n1dir_n2dir _, dot_n1dir_v _, dot_n2dir_v _, ?_, ?_,
    fun k => ringCount_iff _ k, ?_⟩
  · rw [hreflect]
  · rw [hreflect]
  · intro k j hk hj
    rw [fanRays_get _ _ _ k j hk hj]
    simp only [direction.add, shiftDir]

/-- Witness for C4 at the green roughness-`1` sphere of the example scene
(the hypotheses `luminous = false` and `0 < roughness` hold there). -/
theorem reflect_rough_fan_witness :
    ∃ od n1 n2 : direction,
      od = rotateAround aimedRay.flip.dir
        ((getRay ⟨0, 0, 0⟩ greenBall.center).flip).dir ∧
      n1 = n1dir od ∧ n2 = n2dir od ∧
      norm n1 = 1 ∧ norm n2 = 1 ∧ dot n1 n2 = 0 ∧
      dot n1 od = 0 ∧ dot n2 od = 0 ∧
      (greenBall.reflect aimedRay ⟨0, 0, 0⟩).1.1 =
        ⟨⟨0, 0, 0⟩, od⟩ ::
          fanRays ⟨0, 0, 0⟩ od (min greenBall.mat.roughness 1) ∧
      (greenBall.reflect aimedRay ⟨0, 0, 0⟩).1.2.1 =
        1 :: List.replicate (ringCount (min greenBall.mat.roughness 1) * 72)
          (1 / 72) ∧
      (∀ k : ℕ, k < ringCount (min greenBall.mat.roughness 1) ↔
        (0.01 : ℝ) + 0.05 * k ≤ 5 * min greenBall.mat.roughness 1) ∧
      (∀ k j : ℕ, k < ringCount (min greenBall.mat.roughness 1) → j < 72 →
        (fanRays ⟨0, 0, 0⟩ od (min greenBall.mat.roughness 1)).get?
            (k * 72 + j) =
          some ⟨⟨0, 0, 0⟩, ⟨od.dx + (0.01 + 0.05 * (k : ℝ)) * norm od *
              (Real.cos (((5 * j : ℕ) : ℝ) * (Real.pi / 180)) * n1.dx +
                Real.sin (((5 * j : ℕ) : ℝ) * (Real.pi / 180)) * n2.dx),
            od.dy + (0.01 + 0.05 * (k : ℝ)) * norm od *
              (Real.cos (((5 * j : ℕ) : ℝ) * (Real.pi / 180)) * n1.dy +
                Real.sin (((5 * j : ℕ) : ℝ) * (Real.pi / 180)) * n2.dy),
            od.dz + (0.01 + 0.05 * (k : ℝ)) * norm od *
              (Real.cos (((5 * j : ℕ) : ℝ) * (Real.pi / 180)) * n1.dz +
                Real.sin (((5 * j : ℕ) : ℝ) * (Real.pi / 180)) * n2.dz)⟩⟩) :=
  reflect_rough_fan greenBall aimedRay ⟨0, 0, 0⟩ rfl
    (by norm_num [greenBall])

/-- C10 counterexample: flipping the ray from the origin with direction
`(1,0,0)` leaves the origin at `(0,0,0)`; the claim would put it at
`origin - direction = (-1,0,0)`. -/
theorem ray_flip_origin_counterexample :
    (ray.flip ⟨⟨0, 0, 0⟩, ⟨1, 0, 0⟩⟩).src ≠ (⟨-1, 0, 0⟩ : point) := by
  intro h
  have hx := congrArg point.x h
  simp [ray.flip, getRay] at hx

/-- C10 (amended): `flip` keeps the ray's origin and negates its direction;
equivalently it re-aims the ray at the point reached by moving distance
`-1` along the original direction, which is `origin - direction`. -/
theorem ray_flip_spec (r : ray) :
    (ray.flip r).src = r.src ∧ (ray.flip r).dir = r.dir.flip ∧
      r.scale (-1) =
        ⟨r.src.x - r.dir.dx, r.src.y - r.dir.dy, r.src.z - r.dir.dz⟩ := by
  refine ⟨rfl, ?_, ?_⟩
  · simp only [ray.flip, getRay, point.to, ray.scale, direction.flip,
      direction.scale]
    congr 1 <;> ring
  · simp only [ray.scale]
    congr 1 <;> ring

end Raytracer
